import Mathlib

/-!
# Verification of the mcp-z/cli manifest-driven configuration generator

Shallow embedding of `src/commands/manifest/generate.ts`,
`src/commands/manifest/metadata-reader.ts` / `env-prompting.ts`, and the
standalone config validator, together with proofs about the combination
generators (`generateCartesianProduct`, `generateMatrixCombinations`,
`generateConditionalCombinations`), the `dependsOn` evaluator
(`shouldPromptEnvVar`), the env-var resolver (`promptForEnvVars` in its
non-interactive executions), and `buildServerConfig`.

JavaScript `Record<string, string>` objects are modelled as
insertion-ordered association lists: assignment (`obj[k] = v`) replaces the
value of an existing key in place, otherwise appends the new key at the
end, exactly as JS object key ordering behaves.  String interpolation of
`undefined` produces the text `"undefined"`, and JS string truthiness
(empty string is falsy) is modelled explicitly at each use site.
-/

namespace McpCli

/-- JS record assignment `m[k] = v`: overwrite in place or append. -/
def rset (m : List (String × String)) (k v : String) : List (String × String) :=
  if m.any (fun p => p.1 = k) then
    m.map (fun p => if p.1 = k then (k, v) else p)
  else
    m ++ [(k, v)]

/-- JS record lookup `m[k]`, `none` modelling `undefined`. -/
def rget? (m : List (String × String)) (k : String) : Option String :=
  (m.find? (fun p => p.1 = k)).map (·.2)

/-- `Object.keys` (with possible duplicates if the list was built raw). -/
def rkeys (m : List (String × String)) : List String := m.map (·.1)

/-- JS object spread `{ ...a, ...b }`: assign every entry of `b` into `a`. -/
def rmerge (a b : List (String × String)) : List (String × String) :=
  b.foldl (fun acc p => rset acc p.1 p.2) a

/-- JS template interpolation of a possibly-`undefined` string. -/
def tmpl : Option String → String
  | some s => s
  | none => "undefined"

/-- JS truthiness of a possibly-`undefined` string. -/
def jsTruthy : Option String → Bool
  | some s => s ≠ ""
  | none => false

/-- JS `String.prototype.toLowerCase` (ASCII range, as `Char.toLower`),
written by mapping over the character list so that it kernel-reduces. -/
def jsToLower (s : String) : String := ⟨s.data.map Char.toLower⟩

/-- `Array.prototype.join(sep)`. -/
def joinParts (sep : String) : List String → String
  | [] => ""
  | [x] => x
  | x :: y :: xs => x ++ sep ++ joinParts sep (y :: xs)

/-- A choice dimension as consumed by the combination generators
(`{ name; choices; dependsOn? }` in `generate.ts`). -/
structure CVar where
  name : String
  choices : List String
  dependsOn : Option (List (String × List String)) := none
deriving DecidableEq, Repr

/-- Input of `generateCartesianProduct`: `{ name: string; choices?: string[] }`. -/
structure PDim where
  name : String
  choices : Option (List String)
deriving DecidableEq, Repr

/-- One generated configuration point (`Combination` in `generate.ts`). -/
structure Combination where
  name : String
  envKeys : List String
  argNames : List String
  defaults : List (String × String)
  argDefaults : List (String × String)
  dimensionValues : List (String × String)
deriving DecidableEq, Repr

/-- `generateCartesianProduct` from `generate.ts` (lines 77–98): empty input
gives one empty tuple; a first dimension with missing or empty choices gives
one empty tuple; otherwise prepend each choice to every tuple of the rest. -/
def generateCartesianProduct : List PDim → List (List String)
  | [] => [[]]
  | first :: rest =>
    match first.choices with
    | none => [[]]
    | some cs =>
      if cs.isEmpty then [[]]
      else if rest.isEmpty then cs.map (fun c => [c])
      else cs.flatMap (fun c => (generateCartesianProduct rest).map (fun r => c :: r))

/-- `shouldPromptEnvVar` (lines 213–225), applied to the `dependsOn` field:
with no `dependsOn` always true; otherwise every `(depName, allowed)` pair
must find a truthy selected value contained in `allowed`. -/
def shouldPromptEnvVar (dependsOn : Option (List (String × List String)))
    (selectedValues : List (String × String)) : Bool :=
  match dependsOn with
  | none => true
  | some deps => deps.all (fun p =>
      match rget? selectedValues p.1 with
      | none => false
      | some v => v ≠ "" && p.2.contains v)

/-- `record[dim.name] = values[i] || ''` folded over all dimensions, starting
from an existing record (the `forEach` assignment loops in `generate.ts`). -/
def extendDims (base : List (String × String)) (dims : List CVar)
    (values : List String) : List (String × String) :=
  (dims.enum.map (fun p => (p.2.name, values.getD p.1 ""))).foldl
    (fun acc p => rset acc p.1 p.2) base

/-- `dimensionValues[dim.name] = values[i] || ''` folded over all dimensions. -/
def assignDims (dims : List CVar) (values : List String) : List (String × String) :=
  extendDims [] dims values

/-- The constant combination emitted when no dimensions exist. -/
def minimalCombination : Combination :=
  { name := "minimal", envKeys := [], argNames := [], defaults := [],
    argDefaults := [], dimensionValues := [] }

/-- `generateMatrixCombinations` (lines 104–123). -/
def generateMatrixCombinations (envVars : List CVar) : List Combination :=
  let dimensions := envVars
  let product := generateCartesianProduct (dimensions.map (fun d => ⟨d.name, some d.choices⟩))
  product.map (fun values =>
    let dimensionValues := assignDims dimensions values
    let nameParts := dimensions.enum.map
      (fun p => jsToLower p.2.name ++ "-" ++ tmpl (values.get? p.1))
    { name := if nameParts.isEmpty then "minimal" else joinParts "_" nameParts
      envKeys := dimensions.map (·.name)
      argNames := []
      defaults := []
      argDefaults := []
      dimensionValues := dimensionValues })

/-- Branch 3c of `generateConditionalCombinations` (lines 164–175): no
conditional dimension applies; one combination from the primary tuple, named
from the multi-choice primary dimensions only.  The fragment value is
`primaryValues[primaryDims.indexOf(dim)]` — positional for the distinct
objects JSON parsing produces — interpolated as JS does (`undefined` text
when out of range). -/
def primaryOnlyCombination (primaryDims : List CVar) (primaryValues : List String) :
    Combination :=
  let nameParts := (primaryDims.enum.filter (fun p => 1 < p.2.choices.length)).map
    (fun p => jsToLower p.2.name ++ "-" ++ tmpl (primaryValues.get? p.1))
  { name := if nameParts.isEmpty then "default" else joinParts "_" nameParts
    envKeys := primaryDims.map (·.name)
    argNames := []
    defaults := []
    argDefaults := []
    dimensionValues := assignDims primaryDims primaryValues }

/-- Branch 3d of `generateConditionalCombinations` (lines 180–198): merge
the applicable-conditional tuple into the base record, name from all
multi-choice active dimensions, primary before conditional. -/
def mergedCombination (primaryDims applicable : List CVar)
    (base : List (String × String)) (condValues : List String) : Combination :=
  let full := extendDims base applicable condValues
  let allDims := primaryDims ++ applicable
  let nameParts := (allDims.filter (fun d => 1 < d.choices.length)).map
    (fun d => jsToLower d.name ++ "-" ++ tmpl (rget? full d.name))
  { name := if nameParts.isEmpty then "default" else joinParts "_" nameParts
    envKeys := (primaryDims ++ applicable).map (·.name)
    argNames := []
    defaults := []
    argDefaults := []
    dimensionValues := full }

/-- `generateConditionalCombinations` (lines 130–203). -/
def generateConditionalCombinations (envVars : List CVar) : List Combination :=
  let primaryDims := envVars.filter (fun e => e.dependsOn.isNone)
  let conditionalDims := envVars.filter (fun e => e.dependsOn.isSome)
  if primaryDims.isEmpty then
    [minimalCombination]
  else
    (generateCartesianProduct
        (primaryDims.map (fun d => ⟨d.name, some d.choices⟩))).flatMap
      (fun primaryValues =>
        let base := assignDims primaryDims primaryValues
        let applicable := conditionalDims.filter
          (fun c => shouldPromptEnvVar c.dependsOn base)
        if applicable.isEmpty then
          [primaryOnlyCombination primaryDims primaryValues]
        else
          (generateCartesianProduct
              (applicable.map (fun d => ⟨d.name, some d.choices⟩))).map
            (mergedCombination primaryDims applicable base))

/-- `EnvVarMetadata` from `metadata-reader.ts`. -/
structure EnvVarMeta where
  name : String
  value : Option String := none
  default : Option String := none
  description : String := ""
  placeholder : Option String := none
  choices : Option (List String) := none
  isRequired : Bool := false
  isSecret : Bool := false
  isMandatoryForMatrix : Option Bool := none
  dependsOn : Option (List (String × List String)) := none
deriving DecidableEq, Repr

/-- `CliArgMetadata` from `metadata-reader.ts`. -/
structure ArgMeta where
  name : String
  value : Option String := none
  choices : Option (List String) := none
deriving DecidableEq, Repr

/-- `PackageConfig` from `metadata-reader.ts` (transport kept as its type tag). -/
structure PackageConfig where
  transportType : String
  environmentVariables : List EnvVarMeta := []
  packageArguments : List ArgMeta := []
deriving DecidableEq, Repr

/-- `MetadataReader.getPackageForTransport`: first package whose transport
type matches. -/
def getPackageForTransport (packages : List PackageConfig) (t : String) :
    Option PackageConfig :=
  packages.find? (fun p => p.transportType = t)

/-- The guard `envVar.choices && envVar.choices.length > 0 && envVar.choices[0]`
from `env-prompting.ts`: the first declared choice when it is truthy. -/
def firstChoiceTruthy (v : EnvVarMeta) : Option String :=
  match v.choices with
  | some (c :: _) => if c = "" then none else some c
  | _ => none

/-- One iteration of the `promptForEnvVars` loop (env-prompting.ts),
threading the accumulated env record and the list of warned variable names.
A branch that would suspend on an interactive prompt is modelled as `none`:
the `some` results are exactly the executions that complete without user
interaction (in particular every quick-mode (`yes`) run, and every non-TTY
run). -/
def promptStep (isTTY : Bool) (procEnv : String → Option String) (yes : Bool)
    (st : List (String × String) × List String) (v : EnvVarMeta) :
    Option (List (String × String) × List String) :=
  let defaultValue := v.default.or v.value
  if jsTruthy defaultValue then
    some (rset st.1 v.name (defaultValue.getD ""), st.2)
  else if jsTruthy (procEnv v.name) && !yes && isTTY then
    none
  else if yes then
    match firstChoiceTruthy v with
    | some c => some (rset st.1 v.name c, st.2)
    | none =>
      if v.isRequired then some (st.1, st.2 ++ [v.name]) else some st
  else
    match firstChoiceTruthy v with
    | some c => if isTTY then none else some (rset st.1 v.name c, st.2)
    | none => if isTTY then none else some st

/-- The `promptForEnvVars` loop over the remaining variables. -/
def promptForEnvVarsAux (isTTY : Bool) (procEnv : String → Option String) (yes : Bool) :
    List EnvVarMeta → List (String × String) × List String →
    Option (List (String × String) × List String)
  | [], st => some st
  | v :: vs, st =>
    match promptStep isTTY procEnv yes st v with
    | none => none
    | some st' => promptForEnvVarsAux isTTY procEnv yes vs st'

/-- `promptForEnvVars` from `env-prompting.ts` as run to completion without
interaction; returns the resolved env record and the names warned about. -/
def promptForEnvVars (isTTY : Bool) (procEnv : String → Option String) (yes : Bool)
    (envVars : List EnvVarMeta) :
    Option (List (String × String) × List String) :=
  promptForEnvVarsAux isTTY procEnv yes envVars ([], [])

/-- The `envDimensions` record of `buildServerConfig`: dimension values whose
key is not a declared package argument name. -/
def envDimensionsOf (pkg : PackageConfig) (comb : Combination) :
    List (String × String) :=
  comb.dimensionValues.foldl
    (fun acc kv =>
      if (pkg.packageArguments.map (·.name)).contains kv.1 then acc
      else rset acc kv.1 kv.2) []

/-- The `argDimensions` record of `buildServerConfig`. -/
def argDimensionsOf (pkg : PackageConfig) (comb : Combination) :
    List (String × String) :=
  comb.dimensionValues.foldl
    (fun acc kv =>
      if (pkg.packageArguments.map (·.name)).contains kv.1 then rset acc kv.1 kv.2
      else acc) []

/-- The `filteredDefaults` record of `buildServerConfig` (generate.ts lines
1003–1012): a declared default is kept when no metadata entry of that name is
found, or the (first) found entry passes `shouldPromptEnvVar`. -/
def filteredDefaultsOf (pkg : PackageConfig) (comb : Combination) :
    List (String × String) :=
  comb.defaults.foldl
    (fun acc kv =>
      match pkg.environmentVariables.find? (fun e => e.name = kv.1) with
      | none => rset acc kv.1 kv.2
      | some m =>
        if shouldPromptEnvVar m.dependsOn comb.dimensionValues then rset acc kv.1 kv.2
        else acc) []

/-- The `envVarsToPrompt` selection of `buildServerConfig` (lines 1019–1041). -/
def envVarsToPromptOf (pkg : PackageConfig) (comb : Combination)
    (optionalVarsToPrompt : Option (List String)) : List EnvVarMeta :=
  let relevantEnvVars := pkg.environmentVariables.filter
    (fun v => comb.envKeys.contains v.name)
  let envVarsMatchingDependsOn := relevantEnvVars.filter
    (fun v => shouldPromptEnvVar v.dependsOn comb.dimensionValues)
  let prePopulatedEnvKeys :=
    rkeys (filteredDefaultsOf pkg comb) ++ rkeys (envDimensionsOf pkg comb)
  match optionalVarsToPrompt with
  | none =>
    envVarsMatchingDependsOn.filter (fun v => !prePopulatedEnvKeys.contains v.name)
  | some sel =>
    if sel.isEmpty then
      envVarsMatchingDependsOn.filter
        (fun v => !prePopulatedEnvKeys.contains v.name && v.isRequired)
    else
      envVarsMatchingDependsOn.filter
        (fun v => !prePopulatedEnvKeys.contains v.name && v.isRequired)
      ++ pkg.environmentVariables.filter
        (fun v => !v.isRequired && sel.contains v.name
          && !prePopulatedEnvKeys.contains v.name
          && shouldPromptEnvVar v.dependsOn comb.dimensionValues)

/-- A stdio-shaped server config (`ServerConfigStdio` in types.ts); an absent
optional field is `none`, never an empty list. -/
structure ServerConfigStdio where
  command : String
  args : Option (List String) := none
  env : Option (List (String × String)) := none
deriving DecidableEq, Repr

/-- An http-shaped server config (`ServerConfigHttp` in types.ts). -/
structure ServerConfigHttp where
  url : String
  start : Option ServerConfigStdio := none
deriving DecidableEq, Repr

/-- The `ServerConfig` union in types.ts. -/
inductive ServerConfig where
  | stdio (c : ServerConfigStdio)
  | http (c : ServerConfigHttp)
deriving DecidableEq, Repr

/-- Parameters of `buildServerConfig` (generate.ts lines 959–975).
`resolvedBin` stands for `path.join(path.resolve(packageDir), binPath)` in
source mode, `none` when `packageDir`/`binPath` is absent. -/
structure BuildParams where
  combination : Combination
  transport : String
  packageName : String
  packages : List PackageConfig
  httpHost : Option String := none
  httpPort : Option Nat := none
  useSource : Bool := false
  resolvedBin : Option String := none
  quick : Bool := false
  optionalVarsToPrompt : Option (List String) := none
deriving Repr

/-- The merged env record of `buildServerConfig` (line 1055):
`{ ...filteredDefaults, ...envDimensions, ...promptedEnv }`. -/
def mergedEnvOf (pkg : PackageConfig) (comb : Combination)
    (promptedEnv : List (String × String)) : List (String × String) :=
  rmerge (rmerge (filteredDefaultsOf pkg comb) (envDimensionsOf pkg comb)) promptedEnv

/-- A stdio-shaped block with `args`/`env` present only when non-empty
(the conditional spreads at generate.ts lines 1097–1100 / 1112–1115). -/
def mkBlock (cmd : String) (args : List String) (env : List (String × String)) :
    ServerConfigStdio :=
  { command := cmd
    args := if args.isEmpty then none else some args
    env := if env.isEmpty then none else some env }

/-- The command/args base: `node <resolved bin>` in source mode (erroring when
the bin path is unresolvable) or `npx -y <packageName>`. -/
def commandBaseOf (p : BuildParams) : Option (String × List String) :=
  if p.useSource then
    match p.resolvedBin with
    | none => none
    | some b => some ("node", [b])
  else some ("npx", ["-y", p.packageName])

/-- `buildServerConfig` (generate.ts lines 959–1122).  `none` models a thrown
error (missing transport package, missing source path) or an execution that
suspended on an interactive prompt; `some` is the returned config. -/
def buildServerConfig (isTTY : Bool) (procEnv : String → Option String)
    (p : BuildParams) : Option ServerConfig :=
  match getPackageForTransport p.packages
      (if p.transport = "http" then "streamable-http" else "stdio") with
  | none => none
  | some pkg =>
    match promptForEnvVars isTTY procEnv p.quick
        (envVarsToPromptOf pkg p.combination p.optionalVarsToPrompt) with
    | none => none
    | some (promptedEnv, _warnings) =>
      match commandBaseOf p with
      | none => none
      | some (command, args0) =>
        let args1 := args0 ++
          (rmerge p.combination.argDefaults (argDimensionsOf pkg p.combination)).flatMap
            (fun kv => [kv.1, kv.2])
        if p.transport = "http" || p.transport = "streamable-http" then
          some (ServerConfig.http
            { url := "http://" ++ p.httpHost.getD "localhost" ++ ":"
                ++ toString (p.httpPort.getD 3000) ++ "/mcp"
              start := some (mkBlock command
                (args1 ++ ["--port", toString (p.httpPort.getD 3000)])
                (mergedEnvOf pkg p.combination promptedEnv)) })
        else
          some (ServerConfig.stdio (mkBlock command args1
            (mergedEnvOf pkg p.combination promptedEnv)))

/-- The env record a config exposes: top-level `env` for stdio, `start.env`
for http configs. -/
def configEnv : ServerConfig → Option (List (String × String))
  | .stdio st => st.env
  | .http h => h.start.bind (·.env)

/-- A char the JS regex `.` (no `s` flag) matches: not a line terminator. -/
def jsDotMatches (c : Char) : Bool :=
  c ≠ '\n' && c ≠ '\r' && c.toNat ≠ 0x2028 && c.toNat ≠ 0x2029

/-- After the opening `${`, the regex `^\$\{.*\}$` needs dot-matchable chars
followed by a final `}`. -/
def placeholderTail : List Char → Bool
  | [] => false
  | ['}'] => true
  | c :: rest => jsDotMatches c && placeholderTail rest

/-- `envValue.match(/^\$\{.*\}$/)` is non-null. -/
def isPlaceholder (s : String) : Bool :=
  match s.data with
  | '$' :: '{' :: rest => placeholderTail rest
  | _ => false

/-- `!envValue || envValue.match(/^\$\{.*\}$/)` over `envToCheck?.[name]`:
the value is treated as missing when the env record is absent, lacks the key,
binds it to the empty string, or binds it to a placeholder. -/
def isMissingValue (envToCheck : Option (List (String × String)))
    (name : String) : Bool :=
  match envToCheck with
  | none => true
  | some env =>
    match rget? env name with
    | none => true
    | some s => s = "" || isPlaceholder s

/-- The missing-required-env-vars filter of the standalone validator
(`validateServerConfig`, lines 151–156): a required variable is missing when
its value is missing per `isMissingValue`.  The variable's `dependsOn` is not
consulted. -/
def missingRequiredEnvVars (pkg : PackageConfig)
    (envToCheck : Option (List (String × String))) : List EnvVarMeta :=
  pkg.environmentVariables.filter (fun v =>
    v.isRequired && isMissingValue envToCheck v.name)

/-- Outcome of validating one server entry. -/
inductive ValidationOutcome where
  | valid
  | error (message : String)
  | warning (message : String)
deriving DecidableEq, Repr

/-- The metadata-dependent portion of `validateServerConfig` (the standalone
validator), with the server metadata already read: structural checks, then
the missing-required-env-vars warning, then the unknown-arguments warning. -/
def validateWithMetadata (sc : ServerConfig) (metadata : List PackageConfig) :
    ValidationOutcome :=
  let structuralError : Option String :=
    match sc with
    | .http h =>
      if h.url = "" then some "HTTP server missing required \"url\" field"
      else
        match h.start with
        | some st =>
          if st.command = "" then
            some "HTTP server \"start\" block missing required \"command\" field"
          else none
        | none => none
    | .stdio st =>
      if st.command = "" then some "Stdio server missing required \"command\" field"
      else none
  match structuralError with
  | some m => ValidationOutcome.error m
  | none =>
    let transport := match sc with
      | .http _ => "streamable-http"
      | .stdio _ => "stdio"
    match getPackageForTransport metadata transport with
    | none =>
      ValidationOutcome.error
        ("No " ++ transport ++ " transport configuration found in server.json")
    | some pkg =>
      let envToCheck := match sc with
        | .stdio st => st.env
        | .http h => h.start.bind (·.env)
      let missing := missingRequiredEnvVars pkg envToCheck
      if !missing.isEmpty then
        ValidationOutcome.warning
          ("Missing or placeholder required env vars: "
            ++ joinParts ", " (missing.map (·.name)))
      else
        let argsToCheck := match sc with
          | .stdio st => st.args.getD []
          | .http h => (h.start.bind (·.args)).getD []
        let validArgNames := pkg.packageArguments.map (·.name)
        let unknownArgs := argsToCheck.filter (fun a =>
          if !a.startsWith "--" then false
          else
            match (a.splitOn "=").head? with
            | none => false
            | some n => if n = "" then false else !validArgNames.contains n)
        if !unknownArgs.isEmpty then
          ValidationOutcome.warning
            ("Unknown arguments: " ++ joinParts ", " unknownArgs
              ++ ". May be outdated - consider regenerating config.")
        else ValidationOutcome.valid

example :
    generateConditionalCombinations
      [⟨"AUTH_MODE", ["loopback-oauth", "dcr"], none⟩,
       ⟨"DCR_MODE", ["self-hosted", "external"], some [("AUTH_MODE", ["dcr"])]⟩]
    = [{ name := "auth_mode-loopback-oauth", envKeys := ["AUTH_MODE"], argNames := [],
         defaults := [], argDefaults := [],
         dimensionValues := [("AUTH_MODE", "loopback-oauth")] },
       { name := "auth_mode-dcr_dcr_mode-self-hosted", envKeys := ["AUTH_MODE", "DCR_MODE"],
         argNames := [], defaults := [], argDefaults := [],
         dimensionValues := [("AUTH_MODE", "dcr"), ("DCR_MODE", "self-hosted")] },
       { name := "auth_mode-dcr_dcr_mode-external", envKeys := ["AUTH_MODE", "DCR_MODE"],
         argNames := [], defaults := [], argDefaults := [],
         dimensionValues := [("AUTH_MODE", "dcr"), ("DCR_MODE", "external")] }] := by
  decide

example :
    generateCartesianProduct [⟨"A", some ["x"]⟩, ⟨"B", some []⟩] = [["x"]] := by decide

example : generateMatrixCombinations [] = [minimalCombination] := by decide

/-! ## Record (JS object) lemmas -/

theorem rkeys_rset (m : List (String × String)) (k v : String) :
    rkeys (rset m k v) = rkeys m ∨ rkeys (rset m k v) = rkeys m ++ [k] := by
  unfold rset rkeys
  by_cases h : m.any (fun p => p.1 = k)
  · left
    simp only [h, if_true, List.map_map]
    refine List.map_congr_left (fun p _ => ?_)
    by_cases hp : p.1 = k
    · simp [hp]
    · simp [hp]
  · right
    simp [h]

theorem mem_rkeys_rset (m : List (String × String)) (k v k' : String)
    (h : k' ∈ rkeys (rset m k v)) : k' ∈ rkeys m ∨ k' = k := by
  rcases rkeys_rset m k v with he | he <;> rw [he] at h
  · exact Or.inl h
  · rcases List.mem_append.mp h with h' | h'
    · exact Or.inl h'
    · exact Or.inr (List.mem_singleton.mp h')

theorem mem_rkeys_rset_of_mem (m : List (String × String)) (k v k' : String)
    (h : k' ∈ rkeys m) : k' ∈ rkeys (rset m k v) := by
  rcases rkeys_rset m k v with he | he <;> rw [he]
  · exact h
  · exact List.mem_append.mpr (Or.inl h)

theorem self_mem_rkeys_rset (m : List (String × String)) (k v : String) :
    k ∈ rkeys (rset m k v) := by
  unfold rset rkeys
  by_cases h : m.any (fun p => p.1 = k)
  · rcases List.any_eq_true.mp h with ⟨p, hp, hpk⟩
    simp only [h, if_true]
    refine List.mem_map.mpr ⟨if p.1 = k then (k, v) else p, List.mem_map_of_mem _ hp, ?_⟩
    simp [of_decide_eq_true hpk]
  · simp [h]

theorem rget?_eq_none_iff (m : List (String × String)) (k : String) :
    rget? m k = none ↔ k ∉ rkeys m := by
  unfold rget? rkeys
  rw [Option.map_eq_none', List.find?_eq_none]
  constructor
  · intro h hk
    rcases List.mem_map.mp hk with ⟨p, hp, hpk⟩
    exact absurd (decide_eq_true hpk) (Bool.not_eq_true _ ▸ by simpa using h p hp)
  · intro h p hp
    by_contra hc
    exact h (List.mem_map.mpr ⟨p, hp, of_decide_eq_true (by simpa using hc)⟩)

theorem rget?_ne_none_of_mem (m : List (String × String)) (k : String)
    (h : k ∈ rkeys m) : rget? m k ≠ none := by
  intro hc
  exact (rget?_eq_none_iff m k).mp hc h

theorem not_mem_rkeys_rset (m : List (String × String)) (k v k' : String)
    (h1 : k' ∉ rkeys m) (h2 : k' ≠ k) : k' ∉ rkeys (rset m k v) :=
  fun hc => ((mem_rkeys_rset m k v k' hc).elim h1 h2)

theorem mem_rkeys_foldl_rset (ps : List (String × String))
    (acc : List (String × String)) (k : String)
    (h : k ∈ rkeys (ps.foldl (fun a p => rset a p.1 p.2) acc)) :
    k ∈ rkeys acc ∨ k ∈ ps.map (·.1) := by
  induction ps generalizing acc with
  | nil => exact Or.inl h
  | cons p ps ih =>
    rcases ih (rset acc p.1 p.2) h with h' | h'
    · rcases mem_rkeys_rset acc p.1 p.2 k h' with h'' | h''
      · exact Or.inl h''
      · exact Or.inr (by simp [h''])
    · exact Or.inr (by simp [h'])

theorem mem_rkeys_foldl_rset_of (ps : List (String × String))
    (acc : List (String × String)) (k : String)
    (h : k ∈ rkeys acc ∨ k ∈ ps.map (·.1)) :
    k ∈ rkeys (ps.foldl (fun a p => rset a p.1 p.2) acc) := by
  induction ps generalizing acc with
  | nil => simpa using h.elim id (by simp)
  | cons p ps ih =>
    rcases h with h' | h'
    · exact ih (rset acc p.1 p.2) (Or.inl (mem_rkeys_rset_of_mem acc p.1 p.2 k h'))
    · rw [List.map_cons] at h'
      rcases List.mem_cons.mp h' with h'' | h''
      · exact ih (rset acc p.1 p.2) (Or.inl (h'' ▸ self_mem_rkeys_rset acc p.1 p.2))
      · exact ih (rset acc p.1 p.2) (Or.inr h'')

/-! ## Cartesian product lemmas -/

theorem generateCartesianProduct_cons (n : String) (cs : List String)
    (rest : List PDim) (h : cs ≠ []) :
    generateCartesianProduct (⟨n, some cs⟩ :: rest) =
      cs.flatMap (fun c => (generateCartesianProduct rest).map (fun r => c :: r)) := by
  cases rest with
  | nil =>
    simp only [generateCartesianProduct, List.isEmpty_eq_true, h, if_false,
      List.isEmpty_nil, if_true]
    have aux : ∀ l : List String,
        (l.map (fun c => ([[c]] : List (List String)))).flatten = l.map (fun c => [c]) := by
      intro l
      induction l with
      | nil => rfl
      | cons c cs ih => simp [ih]
    simp [List.flatMap, aux]
  | cons d ds =>
    simp [generateCartesianProduct, List.isEmpty_eq_true, h]

/-- `t` picks one declared choice per dimension, in dimension order. -/
def Selects (dims : List PDim) (t : List String) : Prop :=
  List.Forall₂ (fun d c => c ∈ d.choices.getD []) dims t

theorem mem_generateCartesianProduct (dims : List PDim)
    (h : ∀ d ∈ dims, ∃ cs, d.choices = some cs ∧ cs ≠ []) (t : List String) :
    t ∈ generateCartesianProduct dims ↔ Selects dims t := by
  induction dims generalizing t with
  | nil =>
    simp [generateCartesianProduct, Selects, List.forall₂_nil_left_iff, eq_comm]
  | cons d ds ih =>
    obtain ⟨cs, hcs, hne⟩ := h d (List.mem_cons_self d ds)
    have hrest := fun d' hd' => h d' (List.mem_cons_of_mem d hd')
    obtain ⟨n, ch⟩ := d
    cases hcs
    rw [generateCartesianProduct_cons n cs ds hne]
    simp only [List.mem_flatMap, List.mem_map, Selects, List.forall₂_cons_left_iff,
      Option.getD_some]
    constructor
    · rintro ⟨c, hc, r, hr, rfl⟩
      exact ⟨c, r, hc, (ih hrest r).mp hr, rfl⟩
    · rintro ⟨c, r, hc, hr, rfl⟩
      exact ⟨c, hc, r, (ih hrest r).mpr hr, rfl⟩

theorem length_generateCartesianProduct (dims : List PDim)
    (h : ∀ d ∈ dims, ∃ cs, d.choices = some cs ∧ cs ≠ []) :
    (generateCartesianProduct dims).length
      = (dims.map (fun d => (d.choices.getD []).length)).prod := by
  induction dims with
  | nil => simp [generateCartesianProduct]
  | cons d ds ih =>
    obtain ⟨cs, hcs, hne⟩ := h d (List.mem_cons_self d ds)
    have hrest := fun d' hd' => h d' (List.mem_cons_of_mem d hd')
    obtain ⟨n, ch⟩ := d
    cases hcs
    rw [generateCartesianProduct_cons n cs ds hne]
    have aux : ∀ (l : List String) (P : List (List String)),
        (l.flatMap (fun c => P.map (fun r => c :: r))).length = l.length * P.length := by
      intro l P
      induction l with
      | nil => simp
      | cons x xs ihx => simp [ihx, Nat.succ_mul, Nat.add_comm]
    simp [aux, ih hrest]

theorem nodup_generateCartesianProduct (dims : List PDim)
    (h : ∀ d ∈ dims, ∃ cs, d.choices = some cs ∧ cs ≠ [])
    (hnd : ∀ d ∈ dims, (d.choices.getD []).Nodup) :
    (generateCartesianProduct dims).Nodup := by
  induction dims with
  | nil => simp [generateCartesianProduct]
  | cons d ds ih =>
    obtain ⟨cs, hcs, hne⟩ := h d (List.mem_cons_self d ds)
    have hrest := fun d' hd' => h d' (List.mem_cons_of_mem d hd')
    have hndrest := fun d' hd' => hnd d' (List.mem_cons_of_mem d hd')
    have hcsnd : cs.Nodup := by
      have := hnd d (List.mem_cons_self d ds)
      rwa [hcs] at this
    obtain ⟨n, ch⟩ := d
    cases hcs
    rw [generateCartesianProduct_cons n cs ds hne]
    refine List.nodup_flatMap.mpr ⟨fun c _ => ?_, ?_⟩
    · exact (ih hrest hndrest).map fun r r' hrr => List.tail_eq_of_cons_eq hrr
    · refine hcsnd.imp ?_
      intro c c' hcc t ht ht'
      rcases List.mem_map.mp ht with ⟨r, _, rfl⟩
      rcases List.mem_map.mp ht' with ⟨r', _, he⟩
      exact hcc (List.head_eq_of_cons_eq he.symm)

/-! ## C2: cartesian completeness -/

/-- C2 counterexample: a dimension list whose only choice list is non-empty
but contains a duplicate (`["x", "x"]`) yields the two equal tuples
`[["x"], ["x"]]`: the tuples are not pairwise distinct and the combination
`["x"]` is covered twice, refuting the claim as stated. -/
theorem C2_counterexample :
    generateCartesianProduct [⟨"A", some ["x", "x"]⟩] = [["x"], ["x"]] ∧
    ¬ (generateCartesianProduct [⟨"A", some ["x", "x"]⟩]).Nodup := by
  exact ⟨by decide, by decide⟩

/-- C2 (amended): for dimensions whose choice lists are all present and
non-empty, `generateCartesianProduct` returns `k1 * ... * kn` tuples, a tuple
is returned iff it picks one choice per dimension in dimension order, and —
provided each dimension's choice list is duplicate-free — the tuples are
pairwise distinct and every selecting tuple occurs exactly once.  The empty
dimension list yields exactly one empty tuple. -/
theorem C2_cartesian_completeness (dims : List PDim)
    (h : ∀ d ∈ dims, ∃ cs, d.choices = some cs ∧ cs ≠ []) :
    (generateCartesianProduct dims).length
        = (dims.map (fun d => (d.choices.getD []).length)).prod ∧
    (∀ t, t ∈ generateCartesianProduct dims ↔ Selects dims t) ∧
    ((∀ d ∈ dims, (d.choices.getD []).Nodup) →
      (generateCartesianProduct dims).Nodup ∧
      ∀ t, Selects dims t →
        @List.count (List String) instBEqOfDecidableEq t (generateCartesianProduct dims) = 1) ∧
    generateCartesianProduct [] = [[]] := by
  refine ⟨length_generateCartesianProduct dims h,
    mem_generateCartesianProduct dims h, fun hnd => ⟨?_, ?_⟩, rfl⟩
  · exact nodup_generateCartesianProduct dims h hnd
  · intro t ht
    exact List.count_eq_one_of_mem (nodup_generateCartesianProduct dims h hnd)
      ((mem_generateCartesianProduct dims h t).mpr ht)

/-- C2 witness: the amended theorem applied to the two-dimension input
`A : [x, y]`, `B : [u]`. -/
theorem C2_cartesian_completeness_witness :
    (generateCartesianProduct [⟨"A", some ["x", "y"]⟩, ⟨"B", some ["u"]⟩]).length
        = ([(⟨"A", some ["x", "y"]⟩ : PDim), ⟨"B", some ["u"]⟩].map
            (fun d => (d.choices.getD []).length)).prod ∧
    (∀ t, t ∈ generateCartesianProduct [⟨"A", some ["x", "y"]⟩, ⟨"B", some ["u"]⟩]
        ↔ Selects [⟨"A", some ["x", "y"]⟩, ⟨"B", some ["u"]⟩] t) ∧
    ((∀ d ∈ [(⟨"A", some ["x", "y"]⟩ : PDim), ⟨"B", some ["u"]⟩],
        (d.choices.getD []).Nodup) →
      (generateCartesianProduct [⟨"A", some ["x", "y"]⟩, ⟨"B", some ["u"]⟩]).Nodup ∧
      ∀ t, Selects [⟨"A", some ["x", "y"]⟩, ⟨"B", some ["u"]⟩] t →
        @List.count (List String) instBEqOfDecidableEq t
          (generateCartesianProduct [⟨"A", some ["x", "y"]⟩, ⟨"B", some ["u"]⟩]) = 1) ∧
    generateCartesianProduct [] = [[]] := by
  refine C2_cartesian_completeness _ ?_
  intro d hd
  rcases List.mem_cons.mp hd with rfl | hd'
  · exact ⟨["x", "y"], rfl, by decide⟩
  · rcases List.mem_singleton.mp hd' with rfl
    exact ⟨["u"], rfl, by decide⟩

/-! ## C10: empty-choices truncation -/

/-- C10 counterexample: an empty choice list in the second (non-first)
position does not yield zero tuples — the product of the preceding
dimensions is returned instead (here one tuple `["x"]`). -/
theorem C10_counterexample :
    generateCartesianProduct [⟨"A", some ["x"]⟩, ⟨"B", some []⟩] = [["x"]] ∧
    (generateCartesianProduct [⟨"A", some ["x"]⟩, ⟨"B", some []⟩]).length ≠ 0 := by
  exact ⟨by decide, by decide⟩

/-- C10 (amended): a dimension with missing or empty choices truncates the
product at its position: `generateCartesianProduct` returns the cartesian
product of the dimensions strictly before the first such dimension, silently
discarding it and every later dimension.  In particular, with such a
dimension first the result is exactly one empty tuple. -/
theorem C10_empty_choices_truncate (pre : List PDim) (d : PDim) (post : List PDim)
    (hpre : ∀ x ∈ pre, ∃ cs, x.choices = some cs ∧ cs ≠ [])
    (hd : d.choices = none ∨ d.choices = some []) :
    generateCartesianProduct (pre ++ d :: post) = generateCartesianProduct pre ∧
    generateCartesianProduct (d :: post) = [[]] := by
  have hstop : generateCartesianProduct (d :: post) = [[]] := by
    rcases hd with hd | hd <;>
      · obtain ⟨n, ch⟩ := d
        cases hd
        simp [generateCartesianProduct]
  refine ⟨?_, hstop⟩
  induction pre with
  | nil => simpa using hstop
  | cons p ps ih =>
    obtain ⟨cs, hcs, hne⟩ := hpre p (List.mem_cons_self p ps)
    have hrest := fun x hx => hpre x (List.mem_cons_of_mem p hx)
    obtain ⟨n, ch⟩ := p
    cases hcs
    rw [List.cons_append, generateCartesianProduct_cons n cs _ hne,
      generateCartesianProduct_cons n cs ps hne, ih hrest]

/-- C10 witness: the amended theorem applied to `A : [x]`, then an
empty-choices dimension `B`, then `C : [z]`. -/
theorem C10_empty_choices_truncate_witness :
    generateCartesianProduct
        [⟨"A", some ["x"]⟩, ⟨"B", some []⟩, ⟨"C", some ["z"]⟩]
      = generateCartesianProduct [⟨"A", some ["x"]⟩] ∧
    generateCartesianProduct [⟨"B", some []⟩, ⟨"C", some ["z"]⟩] = [[]] := by
  refine C10_empty_choices_truncate [⟨"A", some ["x"]⟩] ⟨"B", some []⟩
    [⟨"C", some ["z"]⟩] ?_ (Or.inr rfl)
  intro x hx
  rcases List.mem_singleton.mp hx with rfl
  exact ⟨["x"], rfl, by decide⟩

/-! ## C3: no-primary fallback -/

/-- C3: when every input variable declares a `dependsOn`,
`generateConditionalCombinations` returns exactly one combination named
`"minimal"` with all key lists and records empty — the conditional variables
are dropped. -/
theorem C3_no_primary_fallback (envVars : List CVar)
    (h : ∀ v ∈ envVars, v.dependsOn ≠ none) :
    generateConditionalCombinations envVars
      = [{ name := "minimal", envKeys := [], argNames := [], defaults := [],
           argDefaults := [], dimensionValues := [] }] := by
  unfold generateConditionalCombinations
  have hfil : envVars.filter (fun e => e.dependsOn.isNone) = [] := by
    rw [List.filter_eq_nil_iff]
    intro v hv
    simpa [Option.isNone_iff_eq_none] using h v hv
  simp [hfil, minimalCombination]

/-- C3 witness: a single conditional variable (depending on `AUTH_MODE`)
collapses to the lone `"minimal"` combination. -/
theorem C3_no_primary_fallback_witness :
    generateConditionalCombinations
        [⟨"DCR_MODE", ["self-hosted", "external"], some [("AUTH_MODE", ["dcr"])]⟩]
      = [{ name := "minimal", envKeys := [], argNames := [], defaults := [],
           argDefaults := [], dimensionValues := [] }] := by
  refine C3_no_primary_fallback _ ?_
  intro v hv
  rcases List.mem_singleton.mp hv with rfl
  simp

/-! ## C1: conditional pruning -/

/-- C1: for a primary dimension `A : [a1, a2]` and a conditional dimension
`B : [b1, b2]` with `dependsOn A = [a2]` (distinct dimension names, `a1 ≠ a2`,
`a2` non-empty), `generateConditionalCombinations` emits exactly the three
combinations `A=a1` (no B value), `A=a2,B=b1` and `A=a2,B=b2`; no combination
pairs `A=a1` with a B value, and the names are the `_`-joined
`lowercased-name + "-" + value` fragments, primary before conditional. -/
theorem C1_conditional_pruning (nA nB a1 a2 b1 b2 : String)
    (h12 : a1 ≠ a2) (h2 : a2 ≠ "") (hAB : nA ≠ nB) :
    generateConditionalCombinations
        [⟨nA, [a1, a2], none⟩, ⟨nB, [b1, b2], some [(nA, [a2])]⟩]
      = [{ name := jsToLower nA ++ "-" ++ a1, envKeys := [nA], argNames := [],
           defaults := [], argDefaults := [], dimensionValues := [(nA, a1)] },
         { name := jsToLower nA ++ "-" ++ a2 ++ "_" ++ jsToLower nB ++ "-" ++ b1,
           envKeys := [nA, nB], argNames := [], defaults := [], argDefaults := [],
           dimensionValues := [(nA, a2), (nB, b1)] },
         { name := jsToLower nA ++ "-" ++ a2 ++ "_" ++ jsToLower nB ++ "-" ++ b2,
           envKeys := [nA, nB], argNames := [], defaults := [], argDefaults := [],
           dimensionValues := [(nA, a2), (nB, b2)] }] := by
  have hA1 : ((a1 = a2) = False) := by simp [h12]
  have hNe : ((nA = nB) = False) := by simp [hAB]
  have hNe' : ((nB = nA) = False) := by simp [Ne.symm hAB]
  have hb1 : ((a1 == a2) = false) := beq_eq_false_iff_ne.mpr h12
  have hb2 : ((a2 == a2) = true) := beq_self_eq_true a2
  have hd2 : ((a2 = "") = False) := by simp [h2]
  simp [generateConditionalCombinations, generateCartesianProduct,
    primaryOnlyCombination, mergedCombination, extendDims,
    assignDims, shouldPromptEnvVar, rset, rget?, tmpl, joinParts,
    minimalCombination, List.filter, List.flatMap, List.enum, List.enumFrom,
    List.foldl, List.any, List.all, List.find?, List.contains,
    List.elem, List.isEmpty,
    Option.isNone, Option.isSome, Option.getD, List.getD,
    Option.map, Option.or, hA1, hNe, hNe', hb1, hb2, hd2, String.append_assoc]

/-- C1 witness: the spec's `AUTH_MODE`/`DCR_MODE` scenario, with the three
expected combination names. -/
theorem C1_conditional_pruning_witness :
    generateConditionalCombinations
        [⟨"AUTH_MODE", ["loopback-oauth", "dcr"], none⟩,
         ⟨"DCR_MODE", ["self-hosted", "external"], some [("AUTH_MODE", ["dcr"])]⟩]
      = [{ name := "auth_mode-loopback-oauth", envKeys := ["AUTH_MODE"],
           argNames := [], defaults := [], argDefaults := [],
           dimensionValues := [("AUTH_MODE", "loopback-oauth")] },
         { name := "auth_mode-dcr_dcr_mode-self-hosted",
           envKeys := ["AUTH_MODE", "DCR_MODE"], argNames := [], defaults := [],
           argDefaults := [],
           dimensionValues := [("AUTH_MODE", "dcr"), ("DCR_MODE", "self-hosted")] },
         { name := "auth_mode-dcr_dcr_mode-external",
           envKeys := ["AUTH_MODE", "DCR_MODE"], argNames := [], defaults := [],
           argDefaults := [],
           dimensionValues := [("AUTH_MODE", "dcr"), ("DCR_MODE", "external")] }] := by
  have h := C1_conditional_pruning "AUTH_MODE" "DCR_MODE" "loopback-oauth" "dcr"
    "self-hosted" "external" (by decide) (by decide) (by decide)
  exact h

/-! ## Structure of conditional combinations (towards C4 and C8) -/

/-- Name fragment contributed by an active dimension and its rendered value. -/
def fragOf (p : CVar × String) : String := jsToLower p.1.name ++ "-" ++ p.2

/-- The conditional-mode naming rule over a fragment list. -/
def mkCondName (parts : List String) : String :=
  if parts.isEmpty then "default" else joinParts "_" parts

/-- A combination whose name is built from exactly the multi-choice members
of an active dimension list `act` (dimension with rendered value), whose
`envKeys` are exactly the active dimension names, whose `dimensionValues`
keys cover the active names and nothing outside `envKeys`, with no args. -/
def ActiveShape (dims : List CVar) (c : Combination) : Prop :=
  ∃ act : List (CVar × String),
    act.map Prod.fst = dims ∧
    c.name = mkCondName ((act.filter (fun p => 1 < p.1.choices.length)).map fragOf) ∧
    c.envKeys = act.map (fun p => p.1.name) ∧
    (∀ p ∈ act, p.1.name ∈ rkeys c.dimensionValues) ∧
    (∀ k ∈ rkeys c.dimensionValues, k ∈ c.envKeys) ∧
    c.argNames = []

theorem rkeys_extendDims_subset (base : List (String × String))
    (dims : List CVar) (values : List String) (k : String)
    (h : k ∈ rkeys (extendDims base dims values)) :
    k ∈ rkeys base ∨ k ∈ dims.map (·.name) := by
  unfold extendDims at h
  rcases mem_rkeys_foldl_rset _ _ _ h with h' | h'
  · exact Or.inl h'
  · right
    rw [List.map_map] at h'
    rcases List.mem_map.mp h' with ⟨q, hq, rfl⟩
    exact List.mem_map.mpr ⟨q.2, List.snd_mem_of_mem_enum hq, rfl⟩

theorem mem_rkeys_extendDims (base : List (String × String))
    (dims : List CVar) (values : List String) (k : String)
    (h : k ∈ rkeys base ∨ k ∈ dims.map (·.name)) :
    k ∈ rkeys (extendDims base dims values) := by
  unfold extendDims
  refine mem_rkeys_foldl_rset_of _ _ _ ?_
  rcases h with h' | h'
  · exact Or.inl h'
  · right
    rcases List.mem_map.mp h' with ⟨d, hd, rfl⟩
    have : ∀ (n : ℕ) (l : List CVar), d ∈ l → ∃ q ∈ l.enumFrom n, q.2 = d := by
      intro n l
      induction l generalizing n with
      | nil => intro hc; cases hc
      | cons x xs ih =>
        intro hm
        rcases List.mem_cons.mp hm with rfl | hm'
        · exact ⟨(n, d), by simp [List.enumFrom], rfl⟩
        · rcases ih (n + 1) hm' with ⟨q, hq, hq2⟩
          exact ⟨q, by simp [List.enumFrom, hq], hq2⟩
    rcases this 0 dims hd with ⟨q, hq, hq2⟩
    rw [List.map_map]
    exact List.mem_map.mpr ⟨q, by simpa [List.enum] using hq, by simp [hq2]⟩

theorem primaryOnlyCombination_shape (primaryDims : List CVar)
    (primaryValues : List String) :
    ActiveShape primaryDims (primaryOnlyCombination primaryDims primaryValues) := by
  refine ⟨primaryDims.enum.map (fun q => (q.2, tmpl (primaryValues.get? q.1))),
    ?_, ?_, ?_, ?_, ?_, rfl⟩
  · rw [List.map_map]
    exact List.enum_map_snd primaryDims
  · show (if _ then "default" else _) = mkCondName _
    rw [List.filter_map, List.map_map]
    rfl
  · show primaryDims.map (·.name) = _
    rw [List.map_map]
    have := congrArg (List.map (·.name)) (List.enum_map_snd primaryDims)
    rw [List.map_map] at this
    exact this.symm
  · intro p hp
    rcases List.mem_map.mp hp with ⟨q, hq, rfl⟩
    show _ ∈ rkeys (assignDims primaryDims primaryValues)
    exact mem_rkeys_extendDims [] primaryDims primaryValues _
      (Or.inr (List.mem_map.mpr ⟨q.2, List.snd_mem_of_mem_enum hq, rfl⟩))
  · intro k hk
    show k ∈ primaryDims.map (·.name)
    rcases rkeys_extendDims_subset [] primaryDims primaryValues k hk with h' | h'
    · cases h'
    · exact h'

theorem mergedCombination_shape (primaryDims applicable : List CVar)
    (primaryValues condValues : List String) :
    ActiveShape (primaryDims ++ applicable)
      (mergedCombination primaryDims applicable
        (assignDims primaryDims primaryValues) condValues) := by
  set base := assignDims primaryDims primaryValues with hbase
  set full := extendDims base applicable condValues with hfull
  have hkey : ∀ k, k ∈ rkeys full ↔
      (k ∈ primaryDims.map (·.name) ∨ k ∈ applicable.map (·.name)) := by
    intro k
    constructor
    · intro hk
      rcases rkeys_extendDims_subset base applicable condValues k hk with h' | h'
      · rcases rkeys_extendDims_subset [] primaryDims primaryValues k h' with h'' | h''
        · cases h''
        · exact Or.inl h''
      · exact Or.inr h'
    · intro hk
      rcases hk with h' | h'
      · exact mem_rkeys_extendDims base applicable condValues k
          (Or.inl (mem_rkeys_extendDims [] primaryDims primaryValues k (Or.inr h')))
      · exact mem_rkeys_extendDims base applicable condValues k (Or.inr h')
  refine ⟨(primaryDims ++ applicable).map (fun d => (d, tmpl (rget? full d.name))),
    ?_, ?_, ?_, ?_, ?_, rfl⟩
  · rw [List.map_map]
    simp [Function.comp_def]
  · show (if _ then "default" else _) = mkCondName _
    rw [List.filter_map, List.map_map]
    rfl
  · show (primaryDims ++ applicable).map (·.name) = _
    rw [List.map_map]
    rfl
  · intro p hp
    rcases List.mem_map.mp hp with ⟨d, hd, rfl⟩
    show d.name ∈ rkeys full
    rcases List.mem_append.mp hd with h' | h'
    · exact (hkey d.name).mpr (Or.inl (List.mem_map.mpr ⟨d, h', rfl⟩))
    · exact (hkey d.name).mpr (Or.inr (List.mem_map.mpr ⟨d, h', rfl⟩))
  · intro k hk
    show k ∈ (primaryDims ++ applicable).map (·.name)
    rcases (hkey k).mp hk with h' | h' <;>
      · rw [List.map_append]
        first
          | exact List.mem_append.mpr (Or.inl h')
          | exact List.mem_append.mpr (Or.inr h')

/-- Every combination emitted by `generateConditionalCombinations` is either
the minimal fallback (when no primary dimension exists) or has the
`ActiveShape` of some active dimension list drawn from the input. -/
theorem gCC_mem_structure (envVars : List CVar) (c : Combination)
    (h : c ∈ generateConditionalCombinations envVars) :
    (envVars.filter (fun e => e.dependsOn.isNone) = [] ∧ c = minimalCombination) ∨
    (∃ dims : List CVar, (∀ d ∈ dims, d ∈ envVars) ∧ ActiveShape dims c) := by
  unfold generateConditionalCombinations at h
  by_cases hp : (envVars.filter (fun e => e.dependsOn.isNone)).isEmpty
  · rw [if_pos hp] at h
    exact Or.inl ⟨List.isEmpty_iff.mp hp, List.mem_singleton.mp h⟩
  · rw [if_neg hp] at h
    rcases List.mem_flatMap.mp h with ⟨pv, _, hmem⟩
    right
    set primaryDims := envVars.filter (fun e => e.dependsOn.isNone) with hpd
    set conditionalDims := envVars.filter (fun e => e.dependsOn.isSome) with hcd
    have hpsub : ∀ d ∈ primaryDims, d ∈ envVars := fun d hd =>
      (List.mem_filter.mp hd).1
    by_cases happ : ((conditionalDims.filter
        (fun c => shouldPromptEnvVar c.dependsOn (assignDims primaryDims pv))).isEmpty)
    · rw [if_pos happ] at hmem
      rcases List.mem_singleton.mp hmem with rfl
      exact ⟨primaryDims, hpsub, primaryOnlyCombination_shape primaryDims pv⟩
    · rw [if_neg happ] at hmem
      rcases List.mem_map.mp hmem with ⟨cv, _, rfl⟩
      refine ⟨primaryDims ++ _, ?_, mergedCombination_shape _ _ pv cv⟩
      intro d hd
      rcases List.mem_append.mp hd with h' | h'
      · exact hpsub d h'
      · exact (List.mem_filter.mp (List.mem_filter.mp h').1).1

/-! ## C4: naming determinism -/

/-- C4: every combination emitted by `generateConditionalCombinations` is the
minimal fallback or has `ActiveShape`: its name is built from the
multi-choice active dimensions only — a single-choice dimension never
contributes a name fragment although its name stays in `envKeys` and in the
`dimensionValues` keys; when additionally no input dimension has more than
one choice (and a primary dimension exists) every emitted name is
`"default"`; and `generateMatrixCombinations` with zero dimensions emits the
single combination named `"minimal"`. -/
theorem C4_naming_determinism :
    (∀ (envVars : List CVar) (c : Combination),
        c ∈ generateConditionalCombinations envVars →
          c = minimalCombination ∨
          ∃ dims, (∀ d ∈ dims, d ∈ envVars) ∧ ActiveShape dims c) ∧
    (∀ (envVars : List CVar) (c : Combination),
        c ∈ generateConditionalCombinations envVars →
          (∀ v ∈ envVars, v.choices.length ≤ 1) →
          (∃ v ∈ envVars, v.dependsOn = none) →
          c.name = "default") ∧
    generateMatrixCombinations [] = [minimalCombination] := by
  refine ⟨?_, ?_, by decide⟩
  · intro envVars c hc
    rcases gCC_mem_structure envVars c hc with ⟨_, rfl⟩ | ⟨dims, hsub, hshape⟩
    · exact Or.inl rfl
    · exact Or.inr ⟨dims, hsub, hshape⟩
  · intro envVars c hc hle hex
    rcases gCC_mem_structure envVars c hc with ⟨hfil, rfl⟩ | hshape
    · exfalso
      rcases hex with ⟨v, hv, hvd⟩
      have : v ∈ envVars.filter (fun e => e.dependsOn.isNone) :=
        List.mem_filter.mpr ⟨hv, by simp [hvd]⟩
      rw [hfil] at this
      cases this
    · rcases hshape with ⟨dims, hsub, act, hact, hname, -, -, -, -⟩
      have hfil : act.filter (fun p => 1 < p.1.choices.length) = [] := by
        rw [List.filter_eq_nil_iff]
        intro p hp
        have : p.1 ∈ envVars := hsub p.1 (hact ▸ List.mem_map.mpr ⟨p, hp, rfl⟩)
        simpa using Nat.not_lt.mpr (hle p.1 this)
      rw [hname, hfil]
      rfl

/-- C4 witness: a single primary dimension with exactly one choice yields one
combination whose name is `"default"` — the single-choice dimension
contributes no fragment even though its value is recorded. -/
theorem C4_naming_determinism_witness :
    ({ name := "default", envKeys := ["A"], argNames := [], defaults := [],
       argDefaults := [], dimensionValues := [("A", "x")] } : Combination).name
      = "default" := by
  refine C4_naming_determinism.2.1 [⟨"A", ["x"], none⟩] _ (by decide) (by decide) ?_
  exact ⟨⟨"A", ["x"], none⟩, by decide, rfl⟩

/-! ## C8: combination invariant -/

/-- C8: for every combination returned by `generateMatrixCombinations` or
`generateConditionalCombinations`, every key of `dimensionValues` is listed
in `envKeys` or in `argNames`. -/
theorem C8_combination_invariant :
    (∀ (envVars : List CVar) (c : Combination),
        c ∈ generateMatrixCombinations envVars →
          ∀ k ∈ rkeys c.dimensionValues, k ∈ c.envKeys ∨ k ∈ c.argNames) ∧
    (∀ (envVars : List CVar) (c : Combination),
        c ∈ generateConditionalCombinations envVars →
          ∀ k ∈ rkeys c.dimensionValues, k ∈ c.envKeys ∨ k ∈ c.argNames) := by
  constructor
  · intro envVars c hc k hk
    unfold generateMatrixCombinations at hc
    rcases List.mem_map.mp hc with ⟨values, _, rfl⟩
    left
    show k ∈ envVars.map (·.name)
    rcases rkeys_extendDims_subset [] envVars values k hk with h' | h'
    · cases h'
    · exact h'
  · intro envVars c hc k hk
    rcases gCC_mem_structure envVars c hc with ⟨_, rfl⟩ | ⟨dims, _, act, _, _, _, _, hsub, _⟩
    · cases hk
    · exact Or.inl (hsub k hk)

/-- C8 witness: the invariant applied to the one-dimension matrix input
`A : [x]` at key `"A"`. -/
theorem C8_combination_invariant_witness :
    "A" ∈ ["A"] ∨ "A" ∈ ([] : List String) := by
  have h := C8_combination_invariant.1 [⟨"A", ["x"], none⟩]
    { name := "a-x", envKeys := ["A"], argNames := [], defaults := [],
      argDefaults := [], dimensionValues := [("A", "x")] }
    (by decide) "A" (by decide)
  exact h

/-! ## Inversion of buildServerConfig, C7, C9 -/

theorem optionOfEmpty_ne_some_nil {α : Type} (l : List α) :
    (if l.isEmpty then none else some l) ≠ some ([] : List α) := by
  cases l with
  | nil => simp
  | cons x xs => simp

theorem buildServerConfig_inv (isTTY : Bool) (procEnv : String → Option String)
    (p : BuildParams) (cfg : ServerConfig)
    (h : buildServerConfig isTTY procEnv p = some cfg) :
    ∃ pkg promptedEnv warns cmd args,
      getPackageForTransport p.packages
          (if p.transport = "http" then "streamable-http" else "stdio") = some pkg ∧
      promptForEnvVars isTTY procEnv p.quick
          (envVarsToPromptOf pkg p.combination p.optionalVarsToPrompt)
        = some (promptedEnv, warns) ∧
      (cfg = ServerConfig.stdio
          (mkBlock cmd args (mergedEnvOf pkg p.combination promptedEnv)) ∨
       ∃ url, cfg = ServerConfig.http
          { url := url
            start := some (mkBlock cmd args
              (mergedEnvOf pkg p.combination promptedEnv)) }) := by
  unfold buildServerConfig at h
  split at h
  · simp at h
  · rename_i pkg hpk
    split at h
    · simp at h
    · rename_i promptedEnv warns hpr
      split at h
      · simp at h
      · rename_i cmd args0 hcb
        split at h
        · rw [Option.some_inj] at h
          exact ⟨pkg, promptedEnv, warns, cmd, _, hpk, hpr, Or.inr ⟨_, h.symm⟩⟩
        · rw [Option.some_inj] at h
          exact ⟨pkg, promptedEnv, warns, cmd, _, hpk, hpr, Or.inl h.symm⟩

/-- C7: a config produced by `buildServerConfig` never carries an empty
`env` record or an empty `args` list — the field is omitted (absent) instead,
both on the top-level stdio config and on the `start` block of an http
config. -/
theorem C7_empty_field_omission (isTTY : Bool) (procEnv : String → Option String)
    (p : BuildParams) (cfg : ServerConfig)
    (h : buildServerConfig isTTY procEnv p = some cfg) :
    (∀ st, cfg = ServerConfig.stdio st → st.env ≠ some [] ∧ st.args ≠ some []) ∧
    (∀ hc st, cfg = ServerConfig.http hc → hc.start = some st →
      st.env ≠ some [] ∧ st.args ≠ some []) := by
  rcases buildServerConfig_inv isTTY procEnv p cfg h with
    ⟨pkg, promptedEnv, warns, cmd, args, -, -, hshape | ⟨url, hshape⟩⟩
  · subst hshape
    refine ⟨fun st hst => ?_, fun hc st hst _ => by cases hst⟩
    rw [ServerConfig.stdio.injEq] at hst
    subst hst
    exact ⟨optionOfEmpty_ne_some_nil _, optionOfEmpty_ne_some_nil _⟩
  · subst hshape
    refine ⟨fun st hst => (by cases hst), fun hc st hst hstart => ?_⟩
    rw [ServerConfig.http.injEq] at hst
    subst hst
    rw [Option.some_inj] at hstart
    subst hstart
    exact ⟨optionOfEmpty_ne_some_nil _, optionOfEmpty_ne_some_nil _⟩

/-- C7 witness: a concrete quick-mode stdio build with no env vars at all
produces `npx -y pkg` with the env field absent; the theorem applied there. -/
theorem C7_empty_field_omission_witness :
    (∀ st, ServerConfig.stdio { command := "npx", args := some ["-y", "pkg"], env := none }
        = ServerConfig.stdio st → st.env ≠ some [] ∧ st.args ≠ some []) ∧
    (∀ hc st, ServerConfig.stdio { command := "npx", args := some ["-y", "pkg"], env := none }
        = ServerConfig.http hc → hc.start = some st →
      st.env ≠ some [] ∧ st.args ≠ some []) := by
  refine C7_empty_field_omission false (fun _ => none)
    { combination := minimalCombination, transport := "stdio",
      packageName := "pkg",
      packages := [{ transportType := "stdio" }] }
    (ServerConfig.stdio { command := "npx", args := some ["-y", "pkg"], env := none })
    (by decide)

/-! ## C9: quick-mode resolution -/

/-- C9 counterexample: a variable with the non-empty choices list `[""]`
(whose first entry is the empty string) is NOT resolved to its first choice
in quick mode — JS truthiness of `choices[0]` fails, so the optional variable
is skipped silently, refuting the claim as stated. -/
theorem C9_counterexample :
    promptForEnvVars false (fun _ => none) true
        [{ name := "V", choices := some [""], isRequired := false }]
      = some ([], []) ∧
    (some ([""] : List String) ≠ (none : Option (List String))) := by
  exact ⟨rfl, by decide⟩

/-- C9 (amended): in quick mode (`yes`), for a variable with no declared
default/value: if the first declared choice is a non-empty string it becomes
the resolved value; otherwise (no choices, empty choices list, or
empty-string first choice) a required variable is skipped with a warning
naming it, and an optional one is skipped silently.  This holds for every
TTY state and process environment — no interactive prompt is consulted (the
resolver never suspends, i.e. never returns `none`). -/
theorem C9_quick_mode_resolution (isTTY : Bool) (procEnv : String → Option String)
    (v : EnvVarMeta) (hd : v.default = none) (hv : v.value = none) :
    (∀ c rest, v.choices = some (c :: rest) → c ≠ "" →
      promptForEnvVars isTTY procEnv true [v] = some ([(v.name, c)], [])) ∧
    (firstChoiceTruthy v = none → v.isRequired = true →
      promptForEnvVars isTTY procEnv true [v] = some ([], [v.name])) ∧
    (firstChoiceTruthy v = none → v.isRequired = false →
      promptForEnvVars isTTY procEnv true [v] = some ([], [])) := by
  refine ⟨?_, ?_, ?_⟩
  · intro c rest hc hne
    simp [promptForEnvVars, promptForEnvVarsAux, promptStep, hd, hv, jsTruthy,
      firstChoiceTruthy, hc, hne, rset]
  · intro hfc hreq
    simp [promptForEnvVars, promptForEnvVarsAux, promptStep, hd, hv, jsTruthy,
      hfc, hreq]
  · intro hfc hreq
    simp [promptForEnvVars, promptForEnvVarsAux, promptStep, hd, hv, jsTruthy,
      hfc, hreq]

/-- C9 witness: quick mode resolves `AUTH_MODE` (choices
`[loopback-oauth, dcr]`, no default) to its first choice. -/
theorem C9_quick_mode_resolution_witness :
    promptForEnvVars false (fun _ => none) true
        [{ name := "AUTH_MODE", choices := some ["loopback-oauth", "dcr"],
           isRequired := true }]
      = some ([("AUTH_MODE", "loopback-oauth")], []) :=
  (C9_quick_mode_resolution false (fun _ => none) _ rfl rfl).1
    "loopback-oauth" ["dcr"] rfl (by decide)

/-! ## C6: the validator's missing-required check vs dependsOn -/

/-- C6 counterexample: a required variable (`DCR_STORE_URI`) whose
`dependsOn` condition fails for the config's own declared dimension value
(`AUTH_MODE = loopback-oauth`) is nevertheless reported by the standalone
validator as a missing required env var — the claim that such variables are
skipped is refuted. -/
theorem C6_counterexample :
    shouldPromptEnvVar (some [("AUTH_MODE", ["dcr"])])
        [("AUTH_MODE", "loopback-oauth")] = false ∧
    validateWithMetadata
        (ServerConfig.stdio
          { command := "npx", args := some ["-y", "x"],
            env := some [("AUTH_MODE", "loopback-oauth")] })
        [{ transportType := "stdio",
           environmentVariables :=
             [{ name := "AUTH_MODE", isRequired := false },
              { name := "DCR_STORE_URI", isRequired := true,
                dependsOn := some [("AUTH_MODE", ["dcr"])] }] }]
      = ValidationOutcome.warning
          "Missing or placeholder required env vars: DCR_STORE_URI" := by
  exact ⟨rfl, rfl⟩

/-- C6 (amended): the standalone validator's missing-required-env-var check
does not consult the `dependsOn` engine at all: a variable is reported
exactly when it is declared, required, and its value in the config's env
record is absent, empty, or a `${...}` placeholder — irrespective of any
`dependsOn` condition against the config's declared dimension values. -/
theorem C6_validator_missing_check (pkg : PackageConfig)
    (envToCheck : Option (List (String × String))) (v : EnvVarMeta) :
    v ∈ missingRequiredEnvVars pkg envToCheck ↔
      v ∈ pkg.environmentVariables ∧ v.isRequired = true ∧
        isMissingValue envToCheck v.name = true := by
  unfold missingRequiredEnvVars
  rw [List.mem_filter]
  constructor
  · rintro ⟨hv, hb⟩
    rcases Bool.and_eq_true_iff.mp hb with ⟨h1, h2⟩
    exact ⟨hv, h1, h2⟩
  · rintro ⟨hv, h1, h2⟩
    exact ⟨hv, Bool.and_eq_true_iff.mpr ⟨h1, h2⟩⟩

/-! ## C5: default filtering under dependsOn -/

theorem promptStep_cases (isTTY : Bool) (procEnv : String → Option String)
    (yes : Bool) (st : List (String × String) × List String) (v : EnvVarMeta)
    (st' : List (String × String) × List String)
    (h : promptStep isTTY procEnv yes st v = some st') :
    st'.1 = st.1 ∨ ∃ c, st'.1 = rset st.1 v.name c := by
  simp only [promptStep] at h
  split at h
  · rw [Option.some_inj] at h
    exact Or.inr ⟨_, by rw [← h]⟩
  · split at h
    · cases h
    · split at h
      · split at h
        · rw [Option.some_inj] at h
          exact Or.inr ⟨_, by rw [← h]⟩
        · split at h <;>
            · rw [Option.some_inj] at h
              exact Or.inl (by rw [← h])
      · split at h
        · split at h
          · cases h
          · rw [Option.some_inj] at h
            exact Or.inr ⟨_, by rw [← h]⟩
        · split at h
          · cases h
          · rw [Option.some_inj] at h
            exact Or.inl (by rw [← h])

theorem promptStep_keys (isTTY : Bool) (procEnv : String → Option String)
    (yes : Bool) (st : List (String × String) × List String) (v : EnvVarMeta)
    (st' : List (String × String) × List String)
    (h : promptStep isTTY procEnv yes st v = some st')
    (k : String) (hk : k ∈ rkeys st'.1) : k ∈ rkeys st.1 ∨ k = v.name := by
  rcases promptStep_cases isTTY procEnv yes st v st' h with h' | ⟨c, h'⟩
  · rw [h'] at hk
    exact Or.inl hk
  · rw [h'] at hk
    exact mem_rkeys_rset _ _ _ _ hk

theorem promptAux_keys (isTTY : Bool) (procEnv : String → Option String)
    (yes : Bool) (vars : List EnvVarMeta) :
    ∀ (st out : List (String × String) × List String),
      promptForEnvVarsAux isTTY procEnv yes vars st = some out →
      ∀ k, k ∈ rkeys out.1 → k ∈ rkeys st.1 ∨ k ∈ vars.map (·.name) := by
  induction vars with
  | nil =>
    intro st out h k hk
    rw [promptForEnvVarsAux, Option.some_inj] at h
    subst h
    exact Or.inl hk
  | cons v vs ih =>
    intro st out h k hk
    rw [promptForEnvVarsAux] at h
    split at h
    · cases h
    · rename_i st' hstep
      rcases ih st' out h k hk with h' | h'
      · rcases promptStep_keys isTTY procEnv yes st v st' hstep k h' with h'' | h''
        · exact Or.inl h''
        · exact Or.inr (by simp [h''])
      · exact Or.inr (by simp [h'])

theorem promptForEnvVars_keys (isTTY : Bool) (procEnv : String → Option String)
    (yes : Bool) (vars : List EnvVarMeta)
    (env : List (String × String)) (warns : List String)
    (h : promptForEnvVars isTTY procEnv yes vars = some (env, warns))
    (k : String) (hk : k ∈ rkeys env) : k ∈ vars.map (·.name) := by
  rcases promptAux_keys isTTY procEnv yes vars ([], []) (env, warns) h k hk with h' | h'
  · cases h'
  · exact h'

/-- Every variable selected for prompting by `buildServerConfig` is declared
in the package and passes its own `dependsOn` check against the
combination's dimension values. -/
theorem envVarsToPromptOf_mem (pkg : PackageConfig) (comb : Combination)
    (o : Option (List String)) (v : EnvVarMeta)
    (h : v ∈ envVarsToPromptOf pkg comb o) :
    v ∈ pkg.environmentVariables ∧
    shouldPromptEnvVar v.dependsOn comb.dimensionValues = true := by
  unfold envVarsToPromptOf at h
  rcases o with _ | sel
  · simp only at h
    have h1 := List.mem_filter.mp h
    have h2 := List.mem_filter.mp h1.1
    have h3 := List.mem_filter.mp h2.1
    exact ⟨h3.1, h2.2⟩
  · simp only at h
    split at h
    · have h1 := List.mem_filter.mp h
      have h2 := List.mem_filter.mp h1.1
      have h3 := List.mem_filter.mp h2.1
      exact ⟨h3.1, h2.2⟩
    · rcases List.mem_append.mp h with h' | h'
      · have h1 := List.mem_filter.mp h'
        have h2 := List.mem_filter.mp h1.1
        have h3 := List.mem_filter.mp h2.1
        exact ⟨h3.1, h2.2⟩
      · have h1 := List.mem_filter.mp h'
        rcases Bool.and_eq_true_iff.mp h1.2 with ⟨h2, h3⟩
        rcases Bool.and_eq_true_iff.mp h2 with ⟨h4, h5⟩
        exact ⟨h1.1, h3⟩

/-- When every declaration named `name` fails its `dependsOn` check (and at
least one such declaration exists), the filtered defaults drop `name`. -/
theorem filteredDefaultsOf_not_mem (pkg : PackageConfig) (comb : Combination)
    (name : String)
    (hall : ∀ m ∈ pkg.environmentVariables, m.name = name →
      shouldPromptEnvVar m.dependsOn comb.dimensionValues = false)
    (hex : ∃ m ∈ pkg.environmentVariables, m.name = name) :
    name ∉ rkeys (filteredDefaultsOf pkg comb) := by
  unfold filteredDefaultsOf
  have main : ∀ (ds : List (String × String)) (acc : List (String × String)),
      name ∉ rkeys acc →
      name ∉ rkeys (ds.foldl
        (fun acc kv =>
          match pkg.environmentVariables.find? (fun e => e.name = kv.1) with
          | none => rset acc kv.1 kv.2
          | some m =>
            if shouldPromptEnvVar m.dependsOn comb.dimensionValues then
              rset acc kv.1 kv.2
            else acc) acc) := by
    intro ds
    induction ds with
    | nil => intro acc hacc; exact hacc
    | cons kv ds ihd =>
      intro acc hacc
      rw [List.foldl_cons]
      by_cases hkey : kv.1 = name
      · subst hkey
        rcases hex with ⟨m0, hm0, hm0n⟩
        cases hfind : pkg.environmentVariables.find? (fun e => e.name = kv.1) with
        | none =>
          exfalso
          rw [List.find?_eq_none] at hfind
          exact (hfind m0 hm0) (by simp [hm0n])
        | some m1 =>
          have hm1 : m1 ∈ pkg.environmentVariables := List.mem_of_find?_eq_some hfind
          have hm1n : m1.name = kv.1 := by
            have := List.find?_some hfind
            simpa using this
          have hsp := hall m1 hm1 hm1n
          simp only [hfind, hsp, Bool.false_eq_true, if_false]
          exact ihd acc hacc
      · cases hfind : pkg.environmentVariables.find? (fun e => e.name = kv.1) with
        | none => exact ihd _ (not_mem_rkeys_rset _ _ _ _ hacc (Ne.symm hkey))
        | some m1 =>
          by_cases hsp : shouldPromptEnvVar m1.dependsOn comb.dimensionValues
          · simp only [hfind, hsp, if_true]
            exact ihd _ (not_mem_rkeys_rset _ _ _ _ hacc (Ne.symm hkey))
          · simp only [hfind, if_neg hsp]
            exact ihd _ hacc
  exact main comb.defaults [] (by simp [rkeys])

theorem envDimensionsOf_not_mem (pkg : PackageConfig) (comb : Combination)
    (name : String) (hdim : name ∉ rkeys comb.dimensionValues) :
    name ∉ rkeys (envDimensionsOf pkg comb) := by
  unfold envDimensionsOf
  have hne : ∀ kv ∈ comb.dimensionValues, kv.1 ≠ name := by
    intro kv hkv hc
    exact hdim (hc ▸ List.mem_map.mpr ⟨kv, hkv, rfl⟩)
  have main : ∀ (ps : List (String × String)) (acc : List (String × String)),
      (∀ kv ∈ ps, kv.1 ≠ name) → name ∉ rkeys acc →
      name ∉ rkeys (ps.foldl
        (fun acc kv =>
          if (pkg.packageArguments.map (·.name)).contains kv.1 then acc
          else rset acc kv.1 kv.2) acc) := by
    intro ps
    induction ps with
    | nil => intro acc _ hacc; exact hacc
    | cons kv ps ihp =>
      intro acc hall hacc
      rw [List.foldl_cons]
      by_cases hc : ((pkg.packageArguments.map (·.name)).contains kv.1) = true
      · rw [if_pos hc]
        exact ihp _ (fun x hx => hall x (List.mem_cons_of_mem _ hx)) hacc
      · rw [if_neg hc]
        exact ihp _ (fun x hx => hall x (List.mem_cons_of_mem _ hx))
          (not_mem_rkeys_rset _ _ _ _ hacc
            (Ne.symm (hall kv (List.mem_cons_self _ _))))
  exact main comb.dimensionValues [] hne (by simp [rkeys])

theorem mem_rkeys_rmerge (a b : List (String × String)) (k : String)
    (h : k ∈ rkeys (rmerge a b)) : k ∈ rkeys a ∨ k ∈ rkeys b :=
  mem_rkeys_foldl_rset b a k h

theorem rget?_optionOfEmpty_getD (e : List (String × String)) (name : String)
    (he : name ∉ rkeys e) :
    rget? (((if e.isEmpty then none else some e) :
      Option (List (String × String))).getD []) name = none := by
  cases e with
  | nil => rfl
  | cons x xs =>
    simp only [List.isEmpty_cons, if_false, Option.getD_some]
    exact (rget?_eq_none_iff _ _).mpr he

/-- C5 (amended): if every declaration of `name` in the selected package
fails its `dependsOn` check against the combination's `dimensionValues`
(with package variable names unique, this is exactly "the declared variable
with that name fails"), and `name` is not itself one of the combination's
dimension values, then a `defaults` entry for `name` never reaches the env
record of the built server config. -/
theorem C5_default_filtering (isTTY : Bool) (procEnv : String → Option String)
    (p : BuildParams) (pkg : PackageConfig) (cfg : ServerConfig)
    (name value : String) (m : EnvVarMeta)
    (hbuild : buildServerConfig isTTY procEnv p = some cfg)
    (hpkg : getPackageForTransport p.packages
        (if p.transport = "http" then "streamable-http" else "stdio") = some pkg)
    (hdef : (name, value) ∈ p.combination.defaults)
    (hnodup : (pkg.environmentVariables.map (·.name)).Nodup)
    (hm : m ∈ pkg.environmentVariables) (hname : m.name = name)
    (hfail : shouldPromptEnvVar m.dependsOn p.combination.dimensionValues = false)
    (hdim : name ∉ rkeys p.combination.dimensionValues) :
    rget? ((configEnv cfg).getD []) name = none := by
  rcases buildServerConfig_inv isTTY procEnv p cfg hbuild with
    ⟨pkg', promptedEnv, warns, cmd, args, hpk', hpr, hshape⟩
  rw [hpkg, Option.some_inj] at hpk'
  subst hpk'
  have hall : ∀ m' ∈ pkg.environmentVariables, m'.name = name →
      shouldPromptEnvVar m'.dependsOn p.combination.dimensionValues = false := by
    intro m' hm' hn'
    have heq : m' = m :=
      List.inj_on_of_nodup_map hnodup hm' hm (by rw [hn', hname])
    rw [heq]
    exact hfail
  have h1 : name ∉ rkeys (filteredDefaultsOf pkg p.combination) :=
    filteredDefaultsOf_not_mem pkg p.combination name hall ⟨m, hm, hname⟩
  have h2 : name ∉ rkeys (envDimensionsOf pkg p.combination) :=
    envDimensionsOf_not_mem pkg p.combination name hdim
  have h3 : name ∉ rkeys promptedEnv := by
    intro hc
    have hmem := promptForEnvVars_keys isTTY procEnv p.quick _ promptedEnv warns hpr name hc
    rcases List.mem_map.mp hmem with ⟨v', hv', hvn⟩
    rcases envVarsToPromptOf_mem pkg p.combination p.optionalVarsToPrompt v' hv' with
      ⟨hvm, hvt⟩
    rw [hall v' hvm hvn] at hvt
    cases hvt
  have hmerged : name ∉ rkeys (mergedEnvOf pkg p.combination promptedEnv) := by
    intro hc
    rcases mem_rkeys_rmerge _ _ _ hc with hc' | hc'
    · rcases mem_rkeys_rmerge _ _ _ hc' with hc'' | hc''
      · exact h1 hc''
      · exact h2 hc''
    · exact h3 hc'
  rcases hshape with hsh | ⟨url, hsh⟩ <;> subst hsh
  · simpa [configEnv, mkBlock] using
      rget?_optionOfEmpty_getD (mergedEnvOf pkg p.combination promptedEnv) name hmerged
  · simpa [configEnv, mkBlock] using
      rget?_optionOfEmpty_getD (mergedEnvOf pkg p.combination promptedEnv) name hmerged

/-- C5 counterexample: when the combination also records the variable among
its `dimensionValues` (never the case for generator-produced combinations,
but allowed by the claim's "for every combination"), the dimension value —
not the default — re-introduces the name into the env record even though the
declared variable's `dependsOn` fails, refuting the claim as stated. -/
theorem C5_counterexample :
    buildServerConfig false (fun _ => none)
        { combination :=
            { name := "c", envKeys := ["A", "V"], argNames := [],
              defaults := [("V", "d")], argDefaults := [],
              dimensionValues := [("A", "n"), ("V", "x")] },
          transport := "stdio", packageName := "pkg",
          packages :=
            [{ transportType := "stdio",
               environmentVariables :=
                 [{ name := "A" },
                  { name := "V", dependsOn := some [("A", ["y"])] }] }] }
      = some (ServerConfig.stdio
          { command := "npx", args := some ["-y", "pkg"],
            env := some [("A", "n"), ("V", "x")] }) ∧
    ("V", "d") ∈ [("V", "d")] ∧
    ({ name := "V", dependsOn := some [("A", ["y"])] } : EnvVarMeta)
      ∈ [({ name := "A" } : EnvVarMeta),
         { name := "V", dependsOn := some [("A", ["y"])] }] ∧
    shouldPromptEnvVar (some [("A", ["y"])]) [("A", "n"), ("V", "x")] = false ∧
    rget? ((configEnv (ServerConfig.stdio
        { command := "npx", args := some ["-y", "pkg"],
          env := some [("A", "n"), ("V", "x")] })).getD []) "V" = some "x" := by
  refine ⟨by decide, by decide, by decide, by decide, by decide⟩

/-- C5 witness: the amended theorem applied to a combination whose default
for `V` (declared with a failing `dependsOn` on `A`) is dropped from the
built env record. -/
theorem C5_default_filtering_witness :
    rget? ((configEnv (ServerConfig.stdio
        { command := "npx", args := some ["-y", "pkg"],
          env := some [("A", "n")] })).getD []) "V" = none := by
  refine C5_default_filtering false (fun _ => none)
    { combination :=
        { name := "c", envKeys := ["A", "V"], argNames := [],
          defaults := [("V", "d")], argDefaults := [],
          dimensionValues := [("A", "n")] },
      transport := "stdio", packageName := "pkg",
      packages :=
        [{ transportType := "stdio",
           environmentVariables :=
             [{ name := "A" },
              { name := "V", dependsOn := some [("A", ["y"])] }] }] }
    { transportType := "stdio",
      environmentVariables :=
        [{ name := "A" },
         { name := "V", dependsOn := some [("A", ["y"])] }] }
    (ServerConfig.stdio
      { command := "npx", args := some ["-y", "pkg"], env := some [("A", "n")] })
    "V" "d" { name := "V", dependsOn := some [("A", ["y"])] }
    (by decide) (by decide) (by decide) (by decide) (by decide) rfl
    (by decide) (by decide)

end McpCli
